import Mathlib

/-!
Verification of the latency sampling loop and metrics aggregation of
`perfApp.py` (class `NetworkLatencyTester`).  The Python code is shallowly
embedded: Python strings are lists of characters, Python `float` values are
modelled as rationals, and Python exceptions are modelled with `Except`.

Modelling notes.
* `str.split(": ")`, `str.splitlines()` and `float(...)` are re-implemented
  over `List Char` (`pySplit`, `pySplitlines`, `pyFloatChars`).  `float` is
  modelled on finite decimal literals (optional sign, integer digits,
  fraction, exponent, surrounding whitespace), which covers every value the
  fixed `curl -w` timing format emits.
* The Streamlit progress-bar and status-text calls in `perform_requests`
  have no effect on the collected metrics and are omitted from the model.
* `subprocess.run(["curl", ...])` is modelled by a function
  `probe : Nat → Option (List Char)` giving the captured standard output of
  iteration `i`; `none` means the process could not be started (Python
  raises `FileNotFoundError` in that case).
* `time.sleep(delay)` raises `ValueError` for a negative delay and is
  otherwise invisible to the metrics; the model keeps exactly that.
-/

set_option maxRecDepth 40000

deriving instance DecidableEq for Except

namespace PerfApp

/-- Numeric value of a list of decimal digit characters (most significant
first), as Python reads a digit run. -/
def digitsVal (ds : List Char) : Nat :=
  ds.foldl (fun a c => 10 * a + (c.toNat - 48)) 0

/-- Consume an optional leading sign, returning `(negative, rest)`, as the
sign handling inside Python `float`. -/
def parseSign : List Char → Bool × List Char
  | [] => (false, [])
  | c :: rest =>
    if c = '+' then (false, rest)
    else if c = '-' then (true, rest)
    else (false, c :: rest)

/-- Strip leading and trailing whitespace, as Python `float` does before
reading the literal. -/
def wsStrip (cs : List Char) : List Char :=
  ((cs.dropWhile Char.isWhitespace).reverse.dropWhile Char.isWhitespace).reverse

/-- Read the unsigned mantissa of a decimal literal: integer digits with an
optional fraction part (present exactly when the first non-digit character
is a decimal point).  Returns the value and the unconsumed suffix. -/
def parseMantissa (cs1 : List Char) : Option (ℚ × List Char) :=
  if (cs1.dropWhile Char.isDigit).head? = some '.' then
    if (cs1.takeWhile Char.isDigit).isEmpty
        && (((cs1.dropWhile Char.isDigit).tail).takeWhile Char.isDigit).isEmpty then
      none
    else
      some ((digitsVal (cs1.takeWhile Char.isDigit) : ℚ)
            + (digitsVal (((cs1.dropWhile Char.isDigit).tail).takeWhile Char.isDigit) : ℚ)
              / (10 : ℚ) ^ (((cs1.dropWhile Char.isDigit).tail).takeWhile Char.isDigit).length,
            ((cs1.dropWhile Char.isDigit).tail).dropWhile Char.isDigit)
  else
    if (cs1.takeWhile Char.isDigit).isEmpty then none
    else some ((digitsVal (cs1.takeWhile Char.isDigit) : ℚ), cs1.dropWhile Char.isDigit)

/-- Read the optional exponent part of a decimal literal and apply it to the
already-signed mantissa value.  The whole literal must be consumed. -/
def parseExpPart (signed : ℚ) : List Char → Option ℚ
  | [] => some signed
  | c :: tail2 =>
    if c = 'e' ∨ c = 'E' then
      if ((parseSign tail2).2.takeWhile Char.isDigit).isEmpty
          || !((parseSign tail2).2.dropWhile Char.isDigit).isEmpty then none
      else
        some (signed * (10 : ℚ) ^
          (if (parseSign tail2).1
           then -(digitsVal ((parseSign tail2).2.takeWhile Char.isDigit) : ℤ)
           else (digitsVal ((parseSign tail2).2.takeWhile Char.isDigit) : ℤ)))
    else none

/-- Signed mantissa plus exponent, after sign extraction. -/
def pyFloatSigned (neg : Bool) (cs1 : List Char) : Option ℚ :=
  match parseMantissa cs1 with
  | none => none
  | some p => parseExpPart (if neg then -p.1 else p.1) p.2

/-- Model of Python `float(s)` on finite decimal literals: strip whitespace,
read an optional sign, a mantissa and an optional exponent; `none` models a
`ValueError`. -/
def pyFloatChars (s : List Char) : Option ℚ :=
  pyFloatSigned (parseSign (wsStrip s)).1 (parseSign (wsStrip s)).2

/-- Split a string at the first occurrence of the separator `": "`,
returning the parts before and after it, or `none` when the separator does
not occur.  This is the parsing step as the specification words it. -/
def splitFirst : List Char → Option (List Char × List Char)
  | [] => none
  | [_] => none
  | c :: d :: rest =>
    if c = ':' ∧ d = ' ' then some ([], rest)
    else (splitFirst (d :: rest)).map (fun p => (c :: p.1, p.2))

/-- Worker for `pySplit`: `acc` holds the characters of the current part in
reverse. -/
def pySplitAux (acc : List Char) : List Char → List (List Char)
  | [] => [acc.reverse]
  | [c] => [(c :: acc).reverse]
  | c :: d :: rest =>
    if c = ':' ∧ d = ' ' then acc.reverse :: pySplitAux [] rest
    else pySplitAux (c :: acc) (d :: rest)

/-- Model of Python `line.split(": ")`: split at every non-overlapping
occurrence of `": "`, leftmost first. -/
def pySplit (cs : List Char) : List (List Char) :=
  pySplitAux [] cs

/-- Model of the tuple unpacking `metric, value = parts`: succeeds exactly
when the list has exactly two elements, otherwise Python raises
`ValueError`. -/
def pyUnpack2 (parts : List (List Char)) : Option (List Char × List Char) :=
  match parts with
  | [a, b] => some (a, b)
  | _ => none

/-- Worker for `pySplitlines`: `acc` holds the current line in reverse.  A
newline terminating the string does not open a final empty line. -/
def pySplitlinesAux (acc : List Char) : List Char → List (List Char)
  | [] => [acc.reverse]
  | c :: rest =>
    if c = '\n' then
      acc.reverse :: (if rest.isEmpty then [] else pySplitlinesAux [] rest)
    else pySplitlinesAux (c :: acc) rest

/-- Model of Python `s.splitlines()` for newline-separated output: the empty
string has no lines, and a trailing newline does not produce a final empty
line. -/
def pySplitlines (cs : List Char) : List (List Char) :=
  if cs.isEmpty then [] else pySplitlinesAux [] cs

/-- The Python exceptions `perform_requests` can raise: `FileNotFoundError`
when `curl` cannot be started, `ValueError` from tuple unpacking, from
`float`, or from a negative `time.sleep`, and `KeyError` from indexing
`self.metrics` with an unknown metric name. -/
inductive PyError where
  | fileNotFoundError
  | valueError (msg : String)
  | keyError (key : String)
deriving DecidableEq, Repr

/-- The `self.metrics` dictionary: one ordered sequence of millisecond
values per fixed metric name, in the insertion order of `__init__`. -/
@[ext] structure Metrics where
  dns : List ℚ
  tcp : List ℚ
  ssl : List ℚ
  server : List ℚ
  total : List ℚ
deriving DecidableEq, Repr

/-- The metrics dictionary as `__init__` builds it: five empty lists. -/
def initMetrics : Metrics := ⟨[], [], [], [], []⟩

/-- The keys of `self.metrics`, in dictionary insertion order. -/
def metricKeys : List (List Char) :=
  ["DNS Lookup Time (ms)".data,
   "TCP Connect Time (ms)".data,
   "SSL Handshake Time (ms)".data,
   "Server Processing Time (ms)".data,
   "Total Time (ms)".data]

/-- `self.metrics[key].append(v)` for a known key; an unknown key leaves the
metrics unchanged (callers check membership in `metricKeys` first, as the
dictionary lookup does). -/
def Metrics.append (m : Metrics) (key : List Char) (v : ℚ) : Metrics :=
  if key = "DNS Lookup Time (ms)".data then { m with dns := m.dns ++ [v] }
  else if key = "TCP Connect Time (ms)".data then { m with tcp := m.tcp ++ [v] }
  else if key = "SSL Handshake Time (ms)".data then { m with ssl := m.ssl ++ [v] }
  else if key = "Server Processing Time (ms)".data then { m with server := m.server ++ [v] }
  else if key = "Total Time (ms)".data then { m with total := m.total ++ [v] }
  else m

/-- The pure part of the per-line processing: `metric, value = line.split(": ")`
followed by `float(value)`, with no dictionary access. -/
def parseLine? (line : List Char) : Option (List Char × ℚ) :=
  match pyUnpack2 (pySplit line) with
  | none => none
  | some p => (pyFloatChars p.2).map (fun v => (p.1, v))

/-- Per-line parsing as the specification describes it: split at the FIRST
occurrence of `": "`, the left side is the label and the right side must
parse as a decimal number.  Compared with `parseLine?` in the refinement
theorem for claim C4. -/
def parseLineSpec (line : List Char) : Option (List Char × ℚ) :=
  match splitFirst line with
  | none => none
  | some p => (pyFloatChars p.2).map (fun v => (p.1, v))

/-- The label a line parses to, when it parses at all. -/
def labelOf? (line : List Char) : Option (List Char) :=
  (parseLine? line).map (fun p => p.1)

/-- A line that parses and whose label (suffixed with `" (ms)"`) is one of
the five dictionary keys, so that processing it succeeds. -/
def goodLine (line : List Char) : Bool :=
  match parseLine? line with
  | some p => decide ((p.1 ++ " (ms)".data) ∈ metricKeys)
  | none => false

/-- One loop body line of `perform_requests`:
`metric, value = line.split(": ")` (ValueError on failure), then
`self.metrics[metric + " (ms)"]` (KeyError on an unknown key — Python
evaluates the subscript before the argument `float(value) * 1000`), then
`float(value)` (ValueError on failure) and the append of the millisecond
value. -/
def processLine (m : Metrics) (line : List Char) : Except PyError Metrics :=
  match pyUnpack2 (pySplit line) with
  | none => .error (.valueError (String.mk line))
  | some p =>
    if (p.1 ++ " (ms)".data) ∈ metricKeys then
      match pyFloatChars p.2 with
      | none => .error (.valueError (String.mk line))
      | some v => .ok (m.append (p.1 ++ " (ms)".data) (v * 1000))
    else .error (.keyError (String.mk (p.1 ++ " (ms)".data)))

/-- The `for line in result.stdout.splitlines()` loop: the first raised
exception aborts the whole run. -/
def processLines (m : Metrics) : List (List Char) → Except PyError Metrics
  | [] => .ok m
  | line :: rest =>
    match processLine m line with
    | .error e => .error e
    | .ok m2 => processLines m2 rest

/-- One iteration of the request loop: run the probe (curl), process its
output lines, then `time.sleep(self.delay)` when this is not the last
iteration (raising `ValueError` for a negative delay). -/
def step (count : Nat) (delay : ℚ) (probe : Nat → Option (List Char))
    (m : Metrics) (i : Nat) : Except PyError Metrics :=
  match probe i with
  | none => .error .fileNotFoundError
  | some out =>
    match processLines m (pySplitlines out) with
    | .error e => .error e
    | .ok m2 =>
      if i < count - 1 then
        if delay < 0 then .error (.valueError "sleep length must be non-negative")
        else .ok m2
      else .ok m2

/-- Run the loop body over a list of iteration indices. -/
def runSteps (count : Nat) (delay : ℚ) (probe : Nat → Option (List Char))
    (m : Metrics) : List Nat → Except PyError Metrics
  | [] => .ok m
  | i :: rest =>
    match step count delay probe m i with
    | .error e => .error e
    | .ok m2 => runSteps count delay probe m2 rest

/-- `perform_requests`: the `for i in range(self.num_requests)` loop starting
from the empty metrics of `__init__`.  The result is the final value of
`self.metrics`, or the first uncaught exception. -/
def performRequests (count : Nat) (delay : ℚ)
    (probe : Nat → Option (List Char)) : Except PyError Metrics :=
  runSteps count delay probe initMetrics (List.range count)

/-- The pandas DataFrame built by `to_dataframe`: five metric columns plus
the synthesized `Request Number` column. -/
structure ResultTable where
  dns : List ℚ
  tcp : List ℚ
  ssl : List ℚ
  server : List ℚ
  total : List ℚ
  requestNumber : List Nat
deriving DecidableEq, Repr

/-- `to_dataframe`: copy the five sequences, synthesize
`Request Number = [i + 1 for i in range(len(dns))]`, and build the
DataFrame; `pd.DataFrame` raises `ValueError` (modelled as `none`) when the
columns do not all have the same length. -/
def toDataframe (m : Metrics) : Option ResultTable :=
  if m.tcp.length = m.dns.length ∧ m.ssl.length = m.dns.length
      ∧ m.server.length = m.dns.length ∧ m.total.length = m.dns.length then
    some ⟨m.dns, m.tcp, m.ssl, m.server, m.total,
          (List.range m.dns.length).map (· + 1)⟩
  else none

/-- The CSV header produced by `df.to_csv(index=False)`: the DataFrame
column names in insertion order. -/
def csvHeader : List String :=
  ["DNS Lookup Time (ms)", "TCP Connect Time (ms)", "SSL Handshake Time (ms)",
   "Server Processing Time (ms)", "Total Time (ms)", "Request Number"]

/-- The CSV serialization of the DataFrame at the numeric level: the header
row, then one row of six values per DataFrame row (the textual decimal
formatting of the numbers is outside the model). -/
def toCsv (t : ResultTable) : List String × List (List ℚ) :=
  (csvHeader,
   (List.range t.requestNumber.length).map (fun i =>
     [t.dns.getD i 0, t.tcp.getD i 0, t.ssl.getD i 0,
      t.server.getD i 0, t.total.getD i 0, ((t.requestNumber.getD i 0 : ℕ) : ℚ)]))

/-- The probe output of the single-iteration scenario of claim C6. -/
def c6Out : List Char :=
  ("DNS Lookup Time: 0.010\nTCP Connect Time: 0.020\nSSL Handshake Time: 0.030\nServer Processing Time: 0.040\nTotal Time: 0.050\n").data

example : pyFloatChars "0.010".data = some (1 / 100) := by with_unfolding_all decide

example : pySplit "DNS Lookup Time: 0.010".data =
    ["DNS Lookup Time".data, "0.010".data] := by decide

example : pySplitlines "a\nb\n".data = ["a".data, "b".data] := by decide

example : pySplitlines "".data = [] := by decide

example : performRequests 1 0 (fun _ => some c6Out) =
    .ok ⟨[10], [20], [30], [40], [50]⟩ := by with_unfolding_all decide

/-- An iteration whose probe output is empty contributes nothing and raises
nothing: its line loop has zero iterations. -/
theorem step_empty_output {count : Nat} {delay : ℚ} {probe : Nat → Option (List Char)}
    {m : Metrics} {i : Nat} (hd : 0 ≤ delay) (hp : probe i = some []) :
    step count delay probe m i = .ok m := by
  unfold step
  rw [hp]
  show (if i < count - 1 then
          if delay < 0 then Except.error (PyError.valueError "sleep length must be non-negative")
          else Except.ok m
        else Except.ok m) = Except.ok m
  by_cases hi : i < count - 1
  · rw [if_pos hi, if_neg (not_lt.mpr hd)]
  · rw [if_neg hi]

/-- A run all of whose probe outputs are empty leaves the metrics untouched
and does not fail (for a non-negative delay). -/
theorem runSteps_all_empty (count : Nat) (delay : ℚ) (probe : Nat → Option (List Char))
    (hd : 0 ≤ delay) :
    ∀ (idxs : List Nat) (m : Metrics), (∀ i ∈ idxs, probe i = some []) →
      runSteps count delay probe m idxs = .ok m := by
  intro idxs
  induction idxs with
  | nil => intro m _; rfl
  | cons i rest ih =>
    intro m h
    unfold runSteps
    rw [step_empty_output hd (h i (List.mem_cons_self i rest))]
    exact ih m (fun j hj => h j (List.mem_cons_of_mem _ hj))

/-- C2, counterexample.  A single-iteration run whose probe produces no
output at all does NOT fail: `perform_requests` completes and the metrics
stay empty, contradicting the claim that it raises `ProbeUnavailableError`
and returns no SampleSet. -/
theorem c2_counterexample :
    performRequests 1 0 (fun _ => some []) = .ok initMetrics := rfl

/-- C2, amended.  If the probe process cannot be started the run does fail
(with the uncaught launch error, there being no `ProbeUnavailableError`
class in the code) and no SampleSet is produced; but a probe invocation
that produces no output lines raises nothing — such iterations append
nothing and the run completes with empty sequences. -/
theorem c2_amended (count : Nat) (delay : ℚ) (probe : Nat → Option (List Char))
    (hc : 1 ≤ count) :
    (probe 0 = none → performRequests count delay probe = .error .fileNotFoundError) ∧
    (0 ≤ delay → (∀ i, i < count → probe i = some []) →
      performRequests count delay probe = .ok initMetrics) := by
  constructor
  · intro h0
    obtain ⟨k, rfl⟩ : ∃ k, count = k + 1 := ⟨count - 1, by omega⟩
    unfold performRequests
    rw [List.range_succ_eq_map]
    unfold runSteps
    unfold step
    rw [h0]
  · intro hd hall
    exact runSteps_all_empty count delay probe hd _ _
      (fun i hi => hall i (List.mem_range.mp hi))

/-- C2, witness for the amended theorem: a probe that cannot be launched
makes the one-iteration run fail with the launch error. -/
theorem c2_witness :
    performRequests 1 0 (fun _ => none) = .error .fileNotFoundError :=
  (c2_amended 1 0 (fun _ => none) (by decide)).1 rfl

/-- C3, counterexample.  Calling the sampler with `count = 0` raises
nothing at all — the loop body never runs, no probe is consulted (here the
probe cannot even be started, yet no error surfaces), and the run completes
with empty sequences.  No `InvalidConfigurationError` exists in the code. -/
theorem c3_counterexample :
    performRequests 0 1 (fun _ => none) = .ok initMetrics := rfl

/-- C3, amended.  With `count < 1` the run performs no iterations, spawns
no probe and completes without error, returning empty sequences; the code
performs no configuration validation (the Streamlit UI constrains the
inputs instead).  A negative delay raises `ValueError` from `time.sleep`,
but only after the first probe has already run, and only when
`count ≥ 2`. -/
theorem c3_amended (delay : ℚ) (probe : Nat → Option (List Char)) :
    performRequests 0 delay probe = .ok initMetrics ∧
    (delay < 0 → ∀ out, probe 0 = some out → pySplitlines out = [] →
      performRequests 2 delay probe =
        .error (.valueError "sleep length must be non-negative")) := by
  constructor
  · rfl
  · intro hneg out h0 hout
    show runSteps 2 delay probe initMetrics [0, 1] = _
    unfold runSteps
    unfold step
    rw [h0]
    simp only [hout, processLines]
    rw [if_pos (by omega : (0:Nat) < 2 - 1), if_pos hneg]

/-- C3, witness for the amended theorem at `delay = -1`. -/
theorem c3_witness :
    performRequests 2 (-1) (fun _ => some []) =
      .error (.valueError "sleep length must be non-negative") :=
  (c3_amended (-1) (fun _ => some [])).2 (by norm_num) [] rfl rfl

/-- C6: a single-iteration run whose probe emits the five fixed-format
lines with seconds 0.010 / 0.020 / 0.030 / 0.040 / 0.050 yields exactly
the millisecond values 10, 20, 30, 40, 50 in the respective sequences. -/
theorem c6 : performRequests 1 0 (fun _ => some c6Out) =
    .ok ⟨[10], [20], [30], [40], [50]⟩ := by with_unfolding_all decide

/-- C7: `to_dataframe` is a pure total function of the metrics: under the
equal-length invariant it never fails and returns the table determined by
the five sequences plus the synthesized request numbers `1..N`.  In this
pure embedding it cannot modify the metrics, and idempotence is
definitional: the same `Metrics` value always yields this same table. -/
theorem c7 (m : Metrics)
    (h : m.tcp.length = m.dns.length ∧ m.ssl.length = m.dns.length
      ∧ m.server.length = m.dns.length ∧ m.total.length = m.dns.length) :
    toDataframe m = some ⟨m.dns, m.tcp, m.ssl, m.server, m.total,
      (List.range m.dns.length).map (· + 1)⟩ := by
  unfold toDataframe
  rw [if_pos h]

/-- C7, witness at a one-request SampleSet. -/
theorem c7_witness :
    toDataframe ⟨[10], [20], [30], [40], [50]⟩ =
      some ⟨[10], [20], [30], [40], [50], [1]⟩ :=
  c7 ⟨[10], [20], [30], [40], [50]⟩ ⟨rfl, rfl, rfl, rfl⟩

/-- Elements of a list that fail the predicate survive `dropWhile`. -/
theorem mem_dropWhile_of_not {p : Char → Bool} {l : List Char} {x : Char}
    (hx : x ∈ l) (hpx : ¬ p x = true) : x ∈ l.dropWhile p := by
  have hsplit := List.takeWhile_append_dropWhile (p := p) (l := l)
  rw [← hsplit] at hx
  rcases List.mem_append.mp hx with h | h
  · exact absurd (List.mem_takeWhile_imp h) hpx
  · exact h

/-- Every character of the input is whitespace or survives `wsStrip`. -/
theorem mem_wsStrip {s : List Char} {x : Char} (hx : x ∈ s) :
    x.isWhitespace = true ∨ x ∈ wsStrip s := by
  by_cases hw : x.isWhitespace = true
  · exact Or.inl hw
  · right
    unfold wsStrip
    rw [List.mem_reverse]
    apply mem_dropWhile_of_not _ hw
    rw [List.mem_reverse]
    exact mem_dropWhile_of_not hx hw

/-- Every character of the input is a sign or survives `parseSign`. -/
theorem mem_parseSign {cs : List Char} {x : Char} (hx : x ∈ cs) :
    x = '+' ∨ x = '-' ∨ x ∈ (parseSign cs).2 := by
  rcases cs with _ | ⟨c, rest⟩
  · cases hx
  · simp only [parseSign]
    by_cases h1 : c = '+'
    · rw [if_pos h1]
      rcases List.mem_cons.mp hx with rfl | h
      · exact Or.inl h1
      · exact Or.inr (Or.inr h)
    · rw [if_neg h1]
      by_cases h2 : c = '-'
      · rw [if_pos h2]
        rcases List.mem_cons.mp hx with rfl | h
        · exact Or.inr (Or.inl h2)
        · exact Or.inr (Or.inr h)
      · rw [if_neg h2]
        exact Or.inr (Or.inr hx)

/-- Characters consumed by a successful mantissa parse are digits or the
decimal point; the rest lands in the unconsumed suffix. -/
theorem parseMantissa_chars {cs1 : List Char} {p : ℚ × List Char}
    (h : parseMantissa cs1 = some p) :
    ∀ x ∈ cs1, x.isDigit = true ∨ x = '.' ∨ x ∈ p.2 := by
  intro x hx
  unfold parseMantissa at h
  split at h
  case isTrue hdot =>
    have hdrop : cs1.dropWhile Char.isDigit = '.' :: (cs1.dropWhile Char.isDigit).tail := by
      rcases hd : cs1.dropWhile Char.isDigit with _ | ⟨c0, t⟩
      · rw [hd] at hdot; cases hdot
      · rw [hd] at hdot
        injection hdot with h3
        rw [h3]
        rfl
    split at h
    · cases h
    · injection h with h2
      rw [← List.takeWhile_append_dropWhile (p := Char.isDigit) (l := cs1)] at hx
      rcases List.mem_append.mp hx with h3 | h3
      · exact Or.inl (List.mem_takeWhile_imp h3)
      · rw [hdrop] at h3
        rcases List.mem_cons.mp h3 with rfl | h4
        · exact Or.inr (Or.inl rfl)
        · rw [← List.takeWhile_append_dropWhile (p := Char.isDigit)
            (l := (cs1.dropWhile Char.isDigit).tail)] at h4
          rcases List.mem_append.mp h4 with h5 | h5
          · exact Or.inl (List.mem_takeWhile_imp h5)
          · rw [← h2]
            exact Or.inr (Or.inr h5)
  case isFalse hdot =>
    split at h
    · cases h
    · injection h with h2
      rw [← List.takeWhile_append_dropWhile (p := Char.isDigit) (l := cs1)] at hx
      rcases List.mem_append.mp hx with h3 | h3
      · exact Or.inl (List.mem_takeWhile_imp h3)
      · rw [← h2]
        exact Or.inr (Or.inr h3)

/-- Characters of a successfully parsed exponent part are the exponent
marker, a sign or digits. -/
theorem parseExpPart_chars {q r : ℚ} {tail : List Char}
    (h : parseExpPart q tail = some r) :
    ∀ x ∈ tail, x = 'e' ∨ x = 'E' ∨ x = '+' ∨ x = '-' ∨ x.isDigit = true := by
  intro x hx
  rcases tail with _ | ⟨c, tail2⟩
  · cases hx
  · simp only [parseExpPart] at h
    split at h
    case isFalse => cases h
    case isTrue hce =>
      split at h
      case isTrue => cases h
      case isFalse hcond =>
        have hdropnil : (parseSign tail2).2.dropWhile Char.isDigit = [] := by
          rcases hl : (parseSign tail2).2.dropWhile Char.isDigit with _ | ⟨y, ys⟩
          · rfl
          · exact absurd (by rw [hl]; simp) hcond
        rcases List.mem_cons.mp hx with rfl | hx2
        · rcases hce with h1 | h1
          · exact Or.inl h1
          · exact Or.inr (Or.inl h1)
        · rcases mem_parseSign hx2 with h1 | h1 | h1
          · exact Or.inr (Or.inr (Or.inl h1))
          · exact Or.inr (Or.inr (Or.inr (Or.inl h1)))
          · rw [← List.takeWhile_append_dropWhile (p := Char.isDigit)
              (l := (parseSign tail2).2), hdropnil, List.append_nil] at h1
            exact Or.inr (Or.inr (Or.inr (Or.inr (List.mem_takeWhile_imp h1))))

/-- Every character of a string accepted by the `float` model is
whitespace, a sign, a decimal point, an exponent marker or a digit. -/
theorem pyFloatChars_class {s : List Char} {v : ℚ} (h : pyFloatChars s = some v) :
    ∀ x ∈ s, x.isWhitespace = true ∨ x = '+' ∨ x = '-' ∨ x = '.'
      ∨ x = 'e' ∨ x = 'E' ∨ x.isDigit = true := by
  intro x hx
  unfold pyFloatChars pyFloatSigned at h
  split at h
  · cases h
  next p heq =>
    rcases mem_wsStrip hx with hw | hx1
    · exact Or.inl hw
    rcases mem_parseSign hx1 with h1 | h1 | h1
    · exact Or.inr (Or.inl h1)
    · exact Or.inr (Or.inr (Or.inl h1))
    rcases parseMantissa_chars heq x h1 with h2 | h2 | h2
    · exact Or.inr (Or.inr (Or.inr (Or.inr (Or.inr (Or.inr h2)))))
    · exact Or.inr (Or.inr (Or.inr (Or.inl h2)))
    rcases parseExpPart_chars h x h2 with h3 | h3 | h3 | h3 | h3
    · exact Or.inr (Or.inr (Or.inr (Or.inr (Or.inl h3))))
    · exact Or.inr (Or.inr (Or.inr (Or.inr (Or.inr (Or.inl h3)))))
    · exact Or.inr (Or.inl h3)
    · exact Or.inr (Or.inr (Or.inl h3))
    · exact Or.inr (Or.inr (Or.inr (Or.inr (Or.inr (Or.inr h3)))))

/-- A string accepted by the `float` model contains no colon. -/
theorem pyFloatChars_no_colon {s : List Char} {v : ℚ}
    (h : pyFloatChars s = some v) : ':' ∉ s := by
  intro hc
  rcases pyFloatChars_class h ':' hc with h1 | h1 | h1 | h1 | h1 | h1 | h1 <;>
    exact absurd h1 (by decide)

/-- A string in which the separator occurs contains a colon. -/
theorem splitFirst_some_colon : ∀ {cs : List Char} {p : List Char × List Char},
    splitFirst cs = some p → ':' ∈ cs := by
  intro cs
  induction cs with
  | nil => intro p h; cases h
  | cons c rest ih =>
    intro p h
    rcases rest with _ | ⟨d, rest2⟩
    · cases h
    · unfold splitFirst at h
      split at h
      case isTrue hcd =>
        rw [hcd.1]
        exact List.mem_cons_self _ _
      case isFalse hcd =>
        rcases hmap : splitFirst (d :: rest2) with _ | q
        · rw [hmap] at h; cases h
        · exact List.mem_cons_of_mem _ (ih hmap)

/-- When the separator does not occur, `pySplitAux` yields the single
remaining part. -/
theorem pySplitAux_none : ∀ (cs : List Char), splitFirst cs = none →
    ∀ acc, pySplitAux acc cs = [acc.reverse ++ cs] := by
  intro cs
  induction cs with
  | nil => intro _ acc; simp [pySplitAux]
  | cons c rest ih =>
    intro h acc
    rcases rest with _ | ⟨d, rest2⟩
    · simp [pySplitAux]
    · unfold splitFirst at h
      split at h
      case isTrue hcd => cases h
      case isFalse hcd =>
        have hnone : splitFirst (d :: rest2) = none := by
          rcases hmap : splitFirst (d :: rest2) with _ | q
          · rfl
          · rw [hmap] at h; cases h
        rw [show pySplitAux acc (c :: d :: rest2) =
              (if c = ':' ∧ d = ' ' then acc.reverse :: pySplitAux [] rest2
               else pySplitAux (c :: acc) (d :: rest2)) from rfl]
        rw [if_neg hcd, ih hnone (c :: acc)]
        simp

/-- When the separator first occurs splitting `cs` as `l ++ ": " ++ r`,
`pySplitAux` yields the first part followed by the split of `r`. -/
theorem pySplitAux_some : ∀ (cs l r : List Char),
    splitFirst cs = some (l, r) →
    ∀ acc, pySplitAux acc cs = (acc.reverse ++ l) :: pySplitAux [] r := by
  intro cs
  induction cs with
  | nil => intro l r h; cases h
  | cons c rest ih =>
    intro l r h acc
    rcases rest with _ | ⟨d, rest2⟩
    · cases h
    · unfold splitFirst at h
      split at h
      case isTrue hcd =>
        rw [show pySplitAux acc (c :: d :: rest2) =
              (if c = ':' ∧ d = ' ' then acc.reverse :: pySplitAux [] rest2
               else pySplitAux (c :: acc) (d :: rest2)) from rfl]
        rw [if_pos hcd]
        injection h with h2
        cases h2
        simp
      case isFalse hcd =>
        rcases hmap : splitFirst (d :: rest2) with _ | ⟨l2, r2⟩
        · rw [hmap] at h; cases h
        · rw [hmap] at h
          simp only [Option.map_some'] at h
          rw [show pySplitAux acc (c :: d :: rest2) =
                (if c = ':' ∧ d = ' ' then acc.reverse :: pySplitAux [] rest2
                 else pySplitAux (c :: acc) (d :: rest2)) from rfl]
          rw [if_neg hcd, ih _ _ hmap (c :: acc)]
          injection h with h2
          cases h2
          simp

/-- `pySplitAux` always returns at least one part. -/
theorem pySplitAux_ne_nil : ∀ (cs acc : List Char), pySplitAux acc cs ≠ [] := by
  intro cs
  induction cs with
  | nil => intro acc; simp [pySplitAux]
  | cons c rest ih =>
    intro acc
    rcases rest with _ | ⟨d, rest2⟩
    · simp [pySplitAux]
    · rw [show pySplitAux acc (c :: d :: rest2) =
            (if c = ':' ∧ d = ' ' then acc.reverse :: pySplitAux [] rest2
             else pySplitAux (c :: acc) (d :: rest2)) from rfl]
      split
      · simp
      · exact ih (c :: acc)

/-- Successful line parses factor through the two-part split and the
`float` conversion. -/
theorem parseLine?_inv {line metric : List Char} {v : ℚ}
    (h : parseLine? line = some (metric, v)) :
    ∃ value, pyUnpack2 (pySplit line) = some (metric, value)
      ∧ pyFloatChars value = some v := by
  unfold parseLine? at h
  split at h
  · cases h
  next p heq =>
    rcases hf : pyFloatChars p.2 with _ | w
    · rw [hf] at h; cases h
    · rw [hf] at h
      simp only [Option.map_some'] at h
      injection h with h2
      rcases p with ⟨a, b⟩
      cases h2
      exact ⟨b, heq, hf⟩

/-- C4, counterexample.  On the line `"Bogus: xyz"` the right side is not
parseable as a decimal number, yet the run does not fail with the
malformed-output error (`ValueError` from `float`): Python evaluates the
dictionary subscript before the argument, so the unknown-label `KeyError`
is raised instead. -/
theorem c4_counterexample :
    processLine initMetrics "Bogus: xyz".data =
      .error (.keyError "Bogus (ms)") := by with_unfolding_all decide

/-- C4, amended.  Parsing by unpacking `line.split(": ")` into exactly two
parts is extensionally equal to splitting on the FIRST `": "` occurrence
(a right side containing a further `": "` never parses as a decimal).  A
line with no separator aborts the run, fatally and without retry, with the
malformed-output `ValueError`; so does a line whose label is one of the
five metrics but whose right side is not parseable.  Only when the label
is additionally unknown does the unknown-label `KeyError` preempt it. -/
theorem c4_amended (line : List Char) :
    parseLine? line = parseLineSpec line ∧
    (pyUnpack2 (pySplit line) = none →
      ∀ (m : Metrics) (rest : List (List Char)),
        processLines m (line :: rest) = .error (.valueError (String.mk line))) ∧
    (∀ metric value, pyUnpack2 (pySplit line) = some (metric, value) →
      (metric ++ " (ms)".data) ∈ metricKeys → pyFloatChars value = none →
      ∀ (m : Metrics) (rest : List (List Char)),
        processLines m (line :: rest) = .error (.valueError (String.mk line))) := by
  refine ⟨?_, ?_, ?_⟩
  · rcases hsf : splitFirst line with _ | ⟨l, r⟩
    · have h1 : pySplit line = [line] := by
        unfold pySplit
        rw [pySplitAux_none line hsf []]
        rfl
      simp only [parseLine?, parseLineSpec, h1, hsf, pyUnpack2]
    · rcases hsf2 : splitFirst r with _ | ⟨l2, r2⟩
      · have h1 : pySplit line = [l, r] := by
          unfold pySplit
          rw [pySplitAux_some line l r hsf [], pySplitAux_none r hsf2 []]
          rfl
        simp only [parseLine?, parseLineSpec, h1, hsf, pyUnpack2]
      · have hfloat : pyFloatChars r = none := by
          rcases hf : pyFloatChars r with _ | v
          · rfl
          · exact absurd (splitFirst_some_colon hsf2) (pyFloatChars_no_colon hf)
        have h1 : pySplit line = l :: l2 :: pySplitAux [] r2 := by
          unfold pySplit
          rw [pySplitAux_some line l r hsf [], pySplitAux_some r l2 r2 hsf2 []]
          rfl
        have hcode : parseLine? line = none := by
          rcases hxs : pySplitAux [] r2 with _ | ⟨y, ys⟩
          · exact absurd hxs (pySplitAux_ne_nil r2 [])
          · rw [hxs] at h1
            simp only [parseLine?, h1, pyUnpack2]
        have hspec : parseLineSpec line = none := by
          simp only [parseLineSpec, hsf, hfloat, Option.map_none']
        rw [hcode, hspec]
  · intro hup m rest
    unfold processLines processLine
    rw [hup]
  · intro metric value hup hkey hfl m rest
    unfold processLines processLine
    simp only [hup]
    rw [if_pos hkey, hfl]

/-- C4, witness for the amended theorem: a line with a known label and an
unparseable right side fatally aborts the run with `ValueError`. -/
theorem c4_witness :
    processLines initMetrics ["DNS Lookup Time: zz".data] =
      .error (.valueError "DNS Lookup Time: zz") :=
  (c4_amended "DNS Lookup Time: zz".data).2.2 "DNS Lookup Time".data "zz".data
    (by decide) (by decide) (by decide) initMetrics []

/-- C10: a well-formed line whose label is not one of the five fixed
metric labels is not silently ignored: the run fails at that line with the
unknown-key `KeyError`, and nothing is appended for it. -/
theorem c10 (line metric : List Char) (v : ℚ)
    (hparse : parseLine? line = some (metric, v))
    (hunk : (metric ++ " (ms)".data) ∉ metricKeys) :
    ∀ (m : Metrics) (rest : List (List Char)),
      processLines m (line :: rest) =
        .error (.keyError (String.mk (metric ++ " (ms)".data))) := by
  intro m rest
  obtain ⟨value, hup, hf⟩ := parseLine?_inv hparse
  unfold processLines processLine
  simp only [hup]
  rw [if_neg hunk]

/-- C10, witness at the line `"Foo Time: 0.5"`. -/
theorem c10_witness :
    processLines initMetrics ["Foo Time: 0.5".data] =
      .error (.keyError "Foo Time (ms)") :=
  c10 "Foo Time: 0.5".data "Foo Time".data (1 / 2)
    (by with_unfolding_all decide) (by decide) initMetrics []

/-- A line that parses to a known metric label appends its value times 1000
to the sequence selected by the label. -/
theorem processLine_of_parse {line metric : List Char} {v : ℚ}
    (hparse : parseLine? line = some (metric, v))
    (hkey : (metric ++ " (ms)".data) ∈ metricKeys) (m : Metrics) :
    processLine m line = .ok (m.append (metric ++ " (ms)".data) (v * 1000)) := by
  obtain ⟨value, hup, hf⟩ := parseLine?_inv hparse
  unfold processLine
  simp only [hup]
  rw [if_pos hkey, hf]

/-- Appending at the DNS key extends exactly the DNS sequence. -/
theorem append_dns (m : Metrics) (v : ℚ) :
    m.append ("DNS Lookup Time".data ++ " (ms)".data) v =
      { m with dns := m.dns ++ [v] } := by
  unfold Metrics.append
  rw [if_pos (by decide)]

/-- Appending at the TCP key extends exactly the TCP sequence. -/
theorem append_tcp (m : Metrics) (v : ℚ) :
    m.append ("TCP Connect Time".data ++ " (ms)".data) v =
      { m with tcp := m.tcp ++ [v] } := by
  unfold Metrics.append
  rw [if_neg (by decide), if_pos (by decide)]

/-- Appending at the SSL key extends exactly the SSL sequence. -/
theorem append_ssl (m : Metrics) (v : ℚ) :
    m.append ("SSL Handshake Time".data ++ " (ms)".data) v =
      { m with ssl := m.ssl ++ [v] } := by
  unfold Metrics.append
  rw [if_neg (by decide), if_neg (by decide), if_pos (by decide)]

/-- Appending at the server key extends exactly the server sequence. -/
theorem append_server (m : Metrics) (v : ℚ) :
    m.append ("Server Processing Time".data ++ " (ms)".data) v =
      { m with server := m.server ++ [v] } := by
  unfold Metrics.append
  rw [if_neg (by decide), if_neg (by decide), if_neg (by decide), if_pos (by decide)]

/-- Appending at the total key extends exactly the total sequence. -/
theorem append_total (m : Metrics) (v : ℚ) :
    m.append ("Total Time".data ++ " (ms)".data) v =
      { m with total := m.total ++ [v] } := by
  unfold Metrics.append
  rw [if_neg (by decide), if_neg (by decide), if_neg (by decide), if_neg (by decide),
    if_pos (by decide)]

/-- Processing the five fixed-label lines of one probe invocation appends
exactly one millisecond value to each metric sequence. -/
theorem processLines_five (m : Metrics) {l1 l2 l3 l4 l5 : List Char}
    {w1 w2 w3 w4 w5 : ℚ}
    (h1 : parseLine? l1 = some ("DNS Lookup Time".data, w1))
    (h2 : parseLine? l2 = some ("TCP Connect Time".data, w2))
    (h3 : parseLine? l3 = some ("SSL Handshake Time".data, w3))
    (h4 : parseLine? l4 = some ("Server Processing Time".data, w4))
    (h5 : parseLine? l5 = some ("Total Time".data, w5)) :
    processLines m [l1, l2, l3, l4, l5] =
      .ok ⟨m.dns ++ [w1 * 1000], m.tcp ++ [w2 * 1000], m.ssl ++ [w3 * 1000],
           m.server ++ [w4 * 1000], m.total ++ [w5 * 1000]⟩ := by
  have e1 : processLine m l1 =
      .ok ⟨m.dns ++ [w1 * 1000], m.tcp, m.ssl, m.server, m.total⟩ := by
    rw [processLine_of_parse h1 (by decide) m, append_dns]
  have e2 : processLine ⟨m.dns ++ [w1 * 1000], m.tcp, m.ssl, m.server, m.total⟩ l2 =
      .ok ⟨m.dns ++ [w1 * 1000], m.tcp ++ [w2 * 1000], m.ssl, m.server, m.total⟩ := by
    rw [processLine_of_parse h2 (by decide) _, append_tcp]
  have e3 : processLine
      ⟨m.dns ++ [w1 * 1000], m.tcp ++ [w2 * 1000], m.ssl, m.server, m.total⟩ l3 =
      .ok ⟨m.dns ++ [w1 * 1000], m.tcp ++ [w2 * 1000], m.ssl ++ [w3 * 1000],
           m.server, m.total⟩ := by
    rw [processLine_of_parse h3 (by decide) _, append_ssl]
  have e4 : processLine ⟨m.dns ++ [w1 * 1000], m.tcp ++ [w2 * 1000],
      m.ssl ++ [w3 * 1000], m.server, m.total⟩ l4 =
      .ok ⟨m.dns ++ [w1 * 1000], m.tcp ++ [w2 * 1000], m.ssl ++ [w3 * 1000],
           m.server ++ [w4 * 1000], m.total⟩ := by
    rw [processLine_of_parse h4 (by decide) _, append_server]
  have e5 : processLine ⟨m.dns ++ [w1 * 1000], m.tcp ++ [w2 * 1000],
      m.ssl ++ [w3 * 1000], m.server ++ [w4 * 1000], m.total⟩ l5 =
      .ok ⟨m.dns ++ [w1 * 1000], m.tcp ++ [w2 * 1000], m.ssl ++ [w3 * 1000],
           m.server ++ [w4 * 1000], m.total ++ [w5 * 1000]⟩ := by
    rw [processLine_of_parse h5 (by decide) _, append_total]
  simp only [processLines, e1, e2, e3, e4, e5]

/-- Splitting a run over an index list into two phases. -/
theorem runSteps_append (count : Nat) (delay : ℚ) (probe : Nat → Option (List Char))
    (xs ys : List Nat) :
    ∀ m : Metrics, runSteps count delay probe m (xs ++ ys) =
      match runSteps count delay probe m xs with
      | .error e => .error e
      | .ok m2 => runSteps count delay probe m2 ys := by
  induction xs with
  | nil => intro m; rfl
  | cons i rest ih =>
    intro m
    cases hstep : step count delay probe m i with
    | error e => simp only [List.cons_append, runSteps, hstep]
    | ok m2 =>
      simp only [List.cons_append, runSteps, hstep]
      exact ih m2

/-- An iteration whose probe launches and whose output lines process
cleanly returns the processed metrics (for a non-negative delay). -/
theorem step_of_processLines (count : Nat) {delay : ℚ}
    {probe : Nat → Option (List Char)} {m m2 : Metrics} {i : Nat} {out : List Char}
    (hd : 0 ≤ delay) (hp : probe i = some out)
    (hpl : processLines m (pySplitlines out) = .ok m2) :
    step count delay probe m i = .ok m2 := by
  unfold step
  simp only [hp, hpl]
  by_cases hi : i < count - 1
  · rw [if_pos hi, if_neg (not_lt.mpr hd)]
  · rw [if_neg hi]

/-- The loop invariant of `perform_requests`: after `k` completed
iterations of well-formed probe output, each metric sequence holds exactly
the `k` converted values, in request order. -/
theorem runSteps_range_ok (count : Nat) (delay : ℚ) (probe : Nat → Option (List Char))
    (L1 L2 L3 L4 L5 : Nat → List Char) (v1 v2 v3 v4 v5 : Nat → ℚ)
    (hdelay : 0 ≤ delay)
    (hprobe : ∀ i, i < count → ∃ out, probe i = some out ∧
      pySplitlines out = [L1 i, L2 i, L3 i, L4 i, L5 i] ∧
      parseLine? (L1 i) = some ("DNS Lookup Time".data, v1 i) ∧
      parseLine? (L2 i) = some ("TCP Connect Time".data, v2 i) ∧
      parseLine? (L3 i) = some ("SSL Handshake Time".data, v3 i) ∧
      parseLine? (L4 i) = some ("Server Processing Time".data, v4 i) ∧
      parseLine? (L5 i) = some ("Total Time".data, v5 i)) :
    ∀ k, k ≤ count →
      runSteps count delay probe initMetrics (List.range k) =
        .ok ⟨(List.range k).map (fun i => v1 i * 1000),
             (List.range k).map (fun i => v2 i * 1000),
             (List.range k).map (fun i => v3 i * 1000),
             (List.range k).map (fun i => v4 i * 1000),
             (List.range k).map (fun i => v5 i * 1000)⟩ := by
  intro k
  induction k with
  | zero => intro _; rfl
  | succ n ih =>
    intro hk
    have hn := ih (Nat.le_of_succ_le hk)
    rw [List.range_succ, runSteps_append, hn]
    obtain ⟨out, hpout, hlines, p1, p2, p3, p4, p5⟩ := hprobe n (by omega)
    have hfive := processLines_five
      ⟨(List.range n).map (fun i => v1 i * 1000),
       (List.range n).map (fun i => v2 i * 1000),
       (List.range n).map (fun i => v3 i * 1000),
       (List.range n).map (fun i => v4 i * 1000),
       (List.range n).map (fun i => v5 i * 1000)⟩ p1 p2 p3 p4 p5
    have hstep := step_of_processLines count hdelay hpout
      (by rw [hlines]; exact hfive)
    simp only [runSteps, hstep]
    simp [List.range_succ]

/-- C1: for a valid configuration and probes that emit the five
fixed-format lines every iteration, `perform_requests` completes with every
metric sequence of length exactly `count`, holding the converted values in
request order; and after every prefix of `k` completed iterations all five
sequences have length exactly `k`. -/
theorem c1 (count : Nat) (delay : ℚ) (probe : Nat → Option (List Char))
    (L1 L2 L3 L4 L5 : Nat → List Char) (v1 v2 v3 v4 v5 : Nat → ℚ)
    (_hcount : 1 ≤ count) (hdelay : 0 ≤ delay)
    (hprobe : ∀ i, i < count → ∃ out, probe i = some out ∧
      pySplitlines out = [L1 i, L2 i, L3 i, L4 i, L5 i] ∧
      parseLine? (L1 i) = some ("DNS Lookup Time".data, v1 i) ∧
      parseLine? (L2 i) = some ("TCP Connect Time".data, v2 i) ∧
      parseLine? (L3 i) = some ("SSL Handshake Time".data, v3 i) ∧
      parseLine? (L4 i) = some ("Server Processing Time".data, v4 i) ∧
      parseLine? (L5 i) = some ("Total Time".data, v5 i)) :
    (∃ m, performRequests count delay probe = .ok m ∧
      m.dns.length = count ∧ m.tcp.length = count ∧ m.ssl.length = count ∧
      m.server.length = count ∧ m.total.length = count ∧
      m.dns = (List.range count).map (fun i => v1 i * 1000) ∧
      m.tcp = (List.range count).map (fun i => v2 i * 1000) ∧
      m.ssl = (List.range count).map (fun i => v3 i * 1000) ∧
      m.server = (List.range count).map (fun i => v4 i * 1000) ∧
      m.total = (List.range count).map (fun i => v5 i * 1000)) ∧
    (∀ k, k ≤ count → ∃ mk,
      runSteps count delay probe initMetrics (List.range k) = .ok mk ∧
      mk.dns.length = k ∧ mk.tcp.length = k ∧ mk.ssl.length = k ∧
      mk.server.length = k ∧ mk.total.length = k) := by
  have main := runSteps_range_ok count delay probe L1 L2 L3 L4 L5 v1 v2 v3 v4 v5
    hdelay hprobe
  constructor
  · exact ⟨_, main count le_rfl, by simp, by simp, by simp, by simp, by simp,
      rfl, rfl, rfl, rfl, rfl⟩
  · intro k hk
    exact ⟨_, main k hk, by simp, by simp, by simp, by simp, by simp⟩

/-- C1, witness: the single-iteration scenario run with the fixed
five-line probe output. -/
theorem c1_witness :
    ∃ m, performRequests 1 0 (fun _ => some c6Out) = .ok m ∧
      m.dns.length = 1 ∧ m.tcp.length = 1 ∧ m.ssl.length = 1 ∧
      m.server.length = 1 ∧ m.total.length = 1 := by
  obtain ⟨⟨m, hrun, hl1, hl2, hl3, hl4, hl5, _⟩, _⟩ :=
    c1 1 0 (fun _ => some c6Out)
      (fun _ => "DNS Lookup Time: 0.010".data)
      (fun _ => "TCP Connect Time: 0.020".data)
      (fun _ => "SSL Handshake Time: 0.030".data)
      (fun _ => "Server Processing Time: 0.040".data)
      (fun _ => "Total Time: 0.050".data)
      (fun _ => 1 / 100) (fun _ => 1 / 50) (fun _ => 3 / 100)
      (fun _ => 1 / 25) (fun _ => 1 / 20)
      le_rfl le_rfl
      (by
        intro i hi
        refine ⟨c6Out, rfl, ?_, ?_, ?_, ?_, ?_, ?_⟩
        · show pySplitlines c6Out = ["DNS Lookup Time: 0.010".data,
            "TCP Connect Time: 0.020".data, "SSL Handshake Time: 0.030".data,
            "Server Processing Time: 0.040".data, "Total Time: 0.050".data]
          decide
        · show parseLine? "DNS Lookup Time: 0.010".data =
            some ("DNS Lookup Time".data, 1 / 100)
          with_unfolding_all decide
        · show parseLine? "TCP Connect Time: 0.020".data =
            some ("TCP Connect Time".data, 1 / 50)
          with_unfolding_all decide
        · show parseLine? "SSL Handshake Time: 0.030".data =
            some ("SSL Handshake Time".data, 3 / 100)
          with_unfolding_all decide
        · show parseLine? "Server Processing Time: 0.040".data =
            some ("Server Processing Time".data, 1 / 25)
          with_unfolding_all decide
        · show parseLine? "Total Time: 0.050".data =
            some ("Total Time".data, 1 / 20)
          with_unfolding_all decide)
  exact ⟨m, hrun, hl1, hl2, hl3, hl4, hl5⟩

/-- The DNS sequence after an append at an arbitrary key. -/
theorem append_field_dns (m : Metrics) (k : List Char) (v : ℚ) :
    (m.append k v).dns =
      if k = "DNS Lookup Time (ms)".data then m.dns ++ [v] else m.dns := by
  unfold Metrics.append
  split_ifs <;> rfl

/-- The TCP sequence after an append at an arbitrary key. -/
theorem append_field_tcp (m : Metrics) (k : List Char) (v : ℚ) :
    (m.append k v).tcp =
      if k = "TCP Connect Time (ms)".data then m.tcp ++ [v] else m.tcp := by
  unfold Metrics.append
  split_ifs <;> first | rfl | (subst_vars; simp_all)

/-- The SSL sequence after an append at an arbitrary key. -/
theorem append_field_ssl (m : Metrics) (k : List Char) (v : ℚ) :
    (m.append k v).ssl =
      if k = "SSL Handshake Time (ms)".data then m.ssl ++ [v] else m.ssl := by
  unfold Metrics.append
  split_ifs <;> first | rfl | (subst_vars; simp_all)

/-- The server sequence after an append at an arbitrary key. -/
theorem append_field_server (m : Metrics) (k : List Char) (v : ℚ) :
    (m.append k v).server =
      if k = "Server Processing Time (ms)".data then m.server ++ [v]
      else m.server := by
  unfold Metrics.append
  split_ifs <;> first | rfl | (subst_vars; simp_all)

/-- The total sequence after an append at an arbitrary key. -/
theorem append_field_total (m : Metrics) (k : List Char) (v : ℚ) :
    (m.append k v).total =
      if k = "Total Time (ms)".data then m.total ++ [v] else m.total := by
  unfold Metrics.append
  split_ifs <;> first | rfl | (subst_vars; simp_all)

/-- Appends at two distinct dictionary keys commute. -/
theorem append_comm (m : Metrics) {k1 k2 : List Char} (hne : k1 ≠ k2)
    (v1 v2 : ℚ) :
    (m.append k1 v1).append k2 v2 = (m.append k2 v2).append k1 v1 := by
  refine Metrics.ext ?_ ?_ ?_ ?_ ?_ <;>
    simp only [append_field_dns, append_field_tcp, append_field_ssl,
      append_field_server, append_field_total] <;>
    split_ifs <;> first | rfl | (subst_vars; exact absurd rfl hne)

/-- Unfolding of the `goodLine` check. -/
theorem goodLine_spec {line : List Char} (h : goodLine line = true) :
    ∃ metric v, parseLine? line = some (metric, v)
      ∧ (metric ++ " (ms)".data) ∈ metricKeys := by
  unfold goodLine at h
  split at h
  next p heq =>
    rcases p with ⟨metric, v⟩
    exact ⟨metric, v, heq, of_decide_eq_true h⟩
  next heq => cases h

/-- Processing is invariant under permuting lines that all parse to known,
pairwise distinct labels: matching is by label text, not line position. -/
theorem processLines_perm : ∀ {l1 l2 : List (List Char)}, l1.Perm l2 →
    (∀ line ∈ l1, goodLine line = true) →
    l1.Pairwise (fun a b => labelOf? a ≠ labelOf? b) →
    ∀ m : Metrics, processLines m l1 = processLines m l2 := by
  intro l1 l2 hperm
  induction hperm with
  | nil => intro _ _ _; rfl
  | cons x hsub ih =>
    intro hgood hpair m
    simp only [processLines]
    cases hx : processLine m x with
    | error e => rfl
    | ok m2 =>
      exact ih (fun l hl => hgood l (List.mem_cons_of_mem _ hl))
        (List.pairwise_cons.mp hpair).2 m2
  | swap x y t =>
    intro hgood hpair m
    obtain ⟨my, vy, hpy, hky⟩ := goodLine_spec (hgood y (List.mem_cons_self _ _))
    obtain ⟨mx, vx, hpx, hkx⟩ :=
      goodLine_spec (hgood x (List.mem_cons_of_mem _ (List.mem_cons_self _ _)))
    have hlab : labelOf? y ≠ labelOf? x :=
      (List.pairwise_cons.mp hpair).1 x (List.mem_cons_self _ _)
    have hmy : labelOf? y = some my := by simp [labelOf?, hpy]
    have hmx : labelOf? x = some mx := by simp [labelOf?, hpx]
    have hmne : (my ++ " (ms)".data) ≠ (mx ++ " (ms)".data) := by
      intro hk
      apply hlab
      rw [hmy, hmx, List.append_cancel_right hk]
    simp only [processLines, processLine_of_parse hpy hky,
      processLine_of_parse hpx hkx]
    exact congrArg (fun mm => processLines mm t)
      (append_comm m hmne (vy * 1000) (vx * 1000))
  | trans h1 h2 ih1 ih2 =>
    intro hgood hpair m
    rw [ih1 hgood hpair m]
    exact ih2 (fun l hl => hgood l ((h1.mem_iff).mpr hl))
      ((h1.pairwise_iff (fun h => h.symm)).mp hpair) m

/-- C5: each parsed seconds value is multiplied by 1000 and appended to the
metric sequence selected by the label text of its line, so the resulting
SampleSet is unchanged under any permutation of the probe output lines
(with their five distinct labels): matching is by label, not position. -/
theorem c5 (l1 l2 : List (List Char)) (m : Metrics) (hperm : l1.Perm l2)
    (hgood : ∀ line ∈ l1, goodLine line = true)
    (hdist : l1.Pairwise (fun a b => labelOf? a ≠ labelOf? b)) :
    processLines m l1 = processLines m l2 ∧
    (∀ line metric v, parseLine? line = some (metric, v) →
      (metric ++ " (ms)".data) ∈ metricKeys →
      ∀ mm : Metrics,
        processLine mm line = .ok (mm.append (metric ++ " (ms)".data) (v * 1000))) :=
  ⟨processLines_perm hperm hgood hdist m,
   fun _ _ _ hp hk mm => processLine_of_parse hp hk mm⟩

/-- C5, witness: the five scenario lines against their reversal. -/
theorem c5_witness :
    processLines initMetrics ["DNS Lookup Time: 0.010".data,
      "TCP Connect Time: 0.020".data, "SSL Handshake Time: 0.030".data,
      "Server Processing Time: 0.040".data, "Total Time: 0.050".data] =
    processLines initMetrics ["Total Time: 0.050".data,
      "Server Processing Time: 0.040".data, "SSL Handshake Time: 0.030".data,
      "TCP Connect Time: 0.020".data, "DNS Lookup Time: 0.010".data] ∧
    (∀ line metric v, parseLine? line = some (metric, v) →
      (metric ++ " (ms)".data) ∈ metricKeys →
      ∀ mm : Metrics,
        processLine mm line = .ok (mm.append (metric ++ " (ms)".data) (v * 1000))) :=
  c5 _ _ initMetrics
    (List.reverse_perm ["DNS Lookup Time: 0.010".data,
      "TCP Connect Time: 0.020".data, "SSL Handshake Time: 0.030".data,
      "Server Processing Time: 0.040".data, "Total Time: 0.050".data]).symm
    (by with_unfolding_all decide) (by with_unfolding_all decide)

/-- Every sample in the SampleSet is non-negative. -/
def nonnegSamples (m : Metrics) : Prop :=
  (∀ x ∈ m.dns, 0 ≤ x) ∧ (∀ x ∈ m.tcp, 0 ≤ x) ∧ (∀ x ∈ m.ssl, 0 ≤ x)
    ∧ (∀ x ∈ m.server, 0 ≤ x) ∧ (∀ x ∈ m.total, 0 ≤ x)

/-- Appending a non-negative value preserves non-negativity of all
sequences. -/
theorem append_nonneg {m : Metrics} {w : ℚ} (hm : nonnegSamples m) (hw : 0 ≤ w)
    (key : List Char) : nonnegSamples (m.append key w) := by
  obtain ⟨hd, ht, hs, hv, ho⟩ := hm
  have hlist : ∀ (l : List ℚ), (∀ x ∈ l, 0 ≤ x) → ∀ x ∈ l ++ [w], 0 ≤ x := by
    intro l hl x hx
    rcases List.mem_append.mp hx with h | h
    · exact hl x h
    · rw [List.mem_singleton.mp h]
      exact hw
  unfold Metrics.append
  split_ifs <;>
    first
      | exact ⟨hlist _ hd, ht, hs, hv, ho⟩
      | exact ⟨hd, hlist _ ht, hs, hv, ho⟩
      | exact ⟨hd, ht, hlist _ hs, hv, ho⟩
      | exact ⟨hd, ht, hs, hlist _ hv, ho⟩
      | exact ⟨hd, ht, hs, hv, hlist _ ho⟩
      | exact ⟨hd, ht, hs, hv, ho⟩

/-- Inversion of a successful `processLine`. -/
theorem processLine_ok_inv {m m2 : Metrics} {line : List Char}
    (h : processLine m line = .ok m2) :
    ∃ metric v, parseLine? line = some (metric, v)
      ∧ (metric ++ " (ms)".data) ∈ metricKeys
      ∧ m2 = m.append (metric ++ " (ms)".data) (v * 1000) := by
  unfold processLine at h
  split at h
  · cases h
  next p heq =>
    split at h
    case isTrue hkey =>
      rcases hf : pyFloatChars p.2 with _ | v
      · rw [hf] at h
        cases h
      · rw [hf] at h
        injection h with h2
        refine ⟨p.1, v, ?_, hkey, h2.symm⟩
        unfold parseLine?
        rw [heq]
        show (pyFloatChars p.2).map (fun w => (p.1, w)) = some (p.1, v)
        rw [hf]
        rfl
    case isFalse => cases h

/-- Processing lines all of whose parsed values are non-negative preserves
non-negativity. -/
theorem processLines_nonneg : ∀ (lines : List (List Char)) (m m2 : Metrics),
    (∀ line ∈ lines, 0 ≤ ((parseLine? line).getD ([], 0)).2) →
    nonnegSamples m → processLines m lines = .ok m2 → nonnegSamples m2 := by
  intro lines
  induction lines with
  | nil =>
    intro m m2 _ hm h
    injection h with h2
    rw [← h2]
    exact hm
  | cons line rest ih =>
    intro m m2 hv hm h
    unfold processLines at h
    cases hline : processLine m line with
    | error e => rw [hline] at h; cases h
    | ok m3 =>
      rw [hline] at h
      obtain ⟨metric, v, hp, hk, hm3⟩ := processLine_ok_inv hline
      have hv0 : 0 ≤ v := by
        have := hv line (List.mem_cons_self _ _)
        rw [hp] at this
        simpa using this
      refine ih m3 m2 (fun l hl => hv l (List.mem_cons_of_mem _ hl)) ?_ h
      rw [hm3]
      exact append_nonneg hm (by positivity) _

/-- Inversion of a successful `step`. -/
theorem step_ok_inv {count : Nat} {delay : ℚ} {probe : Nat → Option (List Char)}
    {m m2 : Metrics} {i : Nat} (h : step count delay probe m i = .ok m2) :
    ∃ out, probe i = some out ∧ processLines m (pySplitlines out) = .ok m2 := by
  unfold step at h
  rcases hp : probe i with _ | out
  · rw [hp] at h; cases h
  · simp only [hp] at h
    rcases hpl : processLines m (pySplitlines out) with e | m3
    · simp only [hpl] at h
      cases h
    · simp only [hpl] at h
      refine ⟨out, rfl, ?_⟩
      rw [hpl]
      split at h
      · split at h
        · cases h
        · injection h with h2; rw [h2]
      · injection h with h2; rw [h2]

/-- The whole run preserves non-negativity of all samples. -/
theorem runSteps_nonneg {count : Nat} {delay : ℚ}
    {probe : Nat → Option (List Char)} :
    ∀ (idxs : List Nat) (m m2 : Metrics),
      (∀ i ∈ idxs, ∀ out, probe i = some out →
        ∀ line ∈ pySplitlines out, 0 ≤ ((parseLine? line).getD ([], 0)).2) →
      nonnegSamples m → runSteps count delay probe m idxs = .ok m2 →
      nonnegSamples m2 := by
  intro idxs
  induction idxs with
  | nil =>
    intro m m2 _ hm h
    injection h with h2
    rw [← h2]
    exact hm
  | cons i rest ih =>
    intro m m2 hv hm h
    unfold runSteps at h
    cases hstep : step count delay probe m i with
    | error e => rw [hstep] at h; cases h
    | ok m3 =>
      rw [hstep] at h
      obtain ⟨out, hp, hpl⟩ := step_ok_inv hstep
      refine ih m3 m2 (fun j hj => hv j (List.mem_cons_of_mem _ hj)) ?_ h
      exact processLines_nonneg _ m m3
        (hv i (List.mem_cons_self _ _) out hp) hm hpl

/-- C8: when every parseable value in every probe output is non-negative,
every millisecond value in the completed SampleSet is non-negative — the
seconds-to-milliseconds conversion multiplies by 1000, preserving sign. -/
theorem c8 (count : Nat) (delay : ℚ) (probe : Nat → Option (List Char))
    (m : Metrics)
    (hvals : ∀ i, i < count → ∀ out, probe i = some out →
      ∀ line ∈ pySplitlines out, 0 ≤ ((parseLine? line).getD ([], 0)).2)
    (hrun : performRequests count delay probe = .ok m) :
    nonnegSamples m :=
  runSteps_nonneg (List.range count) initMetrics m
    (fun i hi => hvals i (List.mem_range.mp hi))
    ⟨fun x hx => absurd hx (List.not_mem_nil x),
     fun x hx => absurd hx (List.not_mem_nil x),
     fun x hx => absurd hx (List.not_mem_nil x),
     fun x hx => absurd hx (List.not_mem_nil x),
     fun x hx => absurd hx (List.not_mem_nil x)⟩ hrun

/-- C8, witness: the scenario run yields only non-negative millisecond
values. -/
theorem c8_witness : nonnegSamples ⟨[10], [20], [30], [40], [50]⟩ :=
  c8 1 0 (fun _ => some c6Out) ⟨[10], [20], [30], [40], [50]⟩
    (by
      intro i _ out hout
      injection hout with h
      rw [← h]
      with_unfolding_all decide)
    (by with_unfolding_all decide)

/-- C9: the CSV serialization of the DataFrame has the header columns in
the fixed order — the five metric labels first, `Request Number` last —
one row per request, and the `Request Number` entry (the last of the six
entries) of row `i` is `i + 1`, so the column holds `1..N`. -/
theorem c9 (m : Metrics) (t : ResultTable) (h : toDataframe m = some t) :
    (toCsv t).1 = ["DNS Lookup Time (ms)", "TCP Connect Time (ms)",
      "SSL Handshake Time (ms)", "Server Processing Time (ms)",
      "Total Time (ms)", "Request Number"] ∧
    (toCsv t).2.length = m.dns.length ∧
    (∀ i, i < m.dns.length →
      ((toCsv t).2.getD i []).getD 5 0 = ((i + 1 : ℕ) : ℚ)) := by
  unfold toDataframe at h
  split at h
  case isFalse => exact absurd h (by simp)
  case isTrue hcond =>
    injection h with h2
    subst h2
    refine ⟨rfl, by simp [toCsv], ?_⟩
    intro i hi
    simp [toCsv, List.getD_eq_getElem?_getD, List.getElem?_map,
      List.getElem?_range hi]

/-- C9, witness at a one-request table. -/
theorem c9_witness :
    (toCsv ⟨[10], [20], [30], [40], [50], [1]⟩).1 = ["DNS Lookup Time (ms)",
      "TCP Connect Time (ms)", "SSL Handshake Time (ms)",
      "Server Processing Time (ms)", "Total Time (ms)", "Request Number"] ∧
    (toCsv ⟨[10], [20], [30], [40], [50], [1]⟩).2.length =
      ([10] : List ℚ).length ∧
    (∀ i, i < ([10] : List ℚ).length →
      ((toCsv ⟨[10], [20], [30], [40], [50], [1]⟩).2.getD i []).getD 5 0 =
        ((i + 1 : ℕ) : ℚ)) :=
  c9 ⟨[10], [20], [30], [40], [50]⟩ ⟨[10], [20], [30], [40], [50], [1]⟩
    (by with_unfolding_all decide)

end PerfApp
